import Mathlib

/-!
Shallow embedding of the `change-detection` crate (`src/lib.rs`): a build-time
helper that walks declared filesystem paths, applies global and per-declaration
include/exclude predicates, and forwards every surviving path to a sink
(by default one `cargo:rerun-if-changed=<path>` line per path on stdout).

Modelling choices:
* A filesystem path is its list of components (`FsPath`); `Path::to_slash`
  becomes intercalation with `/`.
* The filesystem subtree visible to a walk is a finite tree `FsEntry`.
  `FsEntry.dirReadErr` stands for a directory whose enumeration
  (`std::fs::read_dir` or reading an entry) fails with an I/O error other than
  "not found"; `Path::is_dir` is true on it, and walking it yields the error.
  The finite-tree model encodes the walk's own precondition that the subtree
  has no symbolic-link cycles (filesystem state is fixed during a walk).
* A `PathMatcher` (`matches(path) -> bool`) is a Lean function
  `FsPath → Bool`.
* Fallible Rust code returning `std::io::Result` becomes `Except Unit`;
  `ChangeDetectionPath::generate`'s `.expect(...)` panic and the sink calls
  made before it are modelled by `Except (List α) (List α)`: `.error acc`
  aborts after the sink has received exactly `acc`.
-/

/-- A filesystem path, as its list of components (Rust `PathBuf`). -/
abbrev FsPath := List String

/-- One node of the filesystem subtree a walk can observe.
`dirReadErr` is a directory whose enumeration fails with a fatal I/O error. -/
inductive FsEntry where
  | file : FsEntry
  | dirReadErr : FsEntry
  | dir : List (String × FsEntry) → FsEntry
deriving Repr

/-- Rust `Path::is_dir` on a node that exists. -/
def FsEntry.is_dir : FsEntry → Bool
  | .file => false
  | .dirReadErr => true
  | .dir _ => true

/-- Resolve a path against a filesystem tree: `none` models
`!path.exists()`, `some node` the entry found there. -/
def FsEntry.resolve : FsEntry → FsPath → Option FsEntry
  | e, [] => some e
  | .dir children, n :: rest =>
    match children.lookup n with
    | some c => FsEntry.resolve c rest
    | none => none
  | .file, _ :: _ => none
  | .dirReadErr, _ :: _ => none

mutual

/-- The body of `collect_resources` (src/lib.rs:575-605) for an entry that
exists: push the entry's own path unfiltered, stop if it is not a directory,
otherwise walk its children; a failing enumeration aborts with `Err`. -/
def collect_node (filter : FsPath → Bool) : FsPath → FsEntry → Except Unit (List FsPath)
  | path, .file => .ok [path]
  | _, .dirReadErr => .error ()
  | path, .dir children =>
    match collect_children filter path children with
    | .error e => .error e
    | .ok rest => .ok (path :: rest)

/-- The `for entry in std::fs::read_dir(&path)?` loop of `collect_resources`
(src/lib.rs:588-602): skip a child failing the filter together with its whole
subtree; recurse first into a child that is a directory, then append the
child's path. -/
def collect_children (filter : FsPath → Bool) :
    FsPath → List (String × FsEntry) → Except Unit (List FsPath)
  | _, [] => .ok []
  | parent, (name, child) :: rest =>
    if filter (parent ++ [name]) then
      if child.is_dir then
        match collect_node filter (parent ++ [name]) child with
        | .error e => .error e
        | .ok nested =>
          match collect_children filter parent rest with
          | .error e => .error e
          | .ok tail => .ok (nested ++ (parent ++ [name]) :: tail)
      else
        match collect_children filter parent rest with
        | .error e => .error e
        | .ok tail => .ok ((parent ++ [name]) :: tail)
    else
      collect_children filter parent rest

end

/-- `collect_resources` (src/lib.rs:575): a root that does not exist yields
`Ok(vec![])`; an existing root is walked by `collect_node`. In the Rust code
the `exists` check recurs at every level, but recursive calls are made only on
paths just produced by `read_dir`, for which it succeeds; the split into
`resolve` + `collect_node` is the same function on a fixed filesystem. -/
def collect_resources (fs : FsEntry) (path : FsPath) (filter : FsPath → Bool) :
    Except Unit (List FsPath) :=
  match fs.resolve path with
  | none => .ok []
  | some node => collect_node filter path node

/-- `ChangeDetectionPath` (src/lib.rs:508-517): one declaration, a root path
with zero, one or two local predicates. -/
inductive ChangeDetectionPath where
  | path : FsPath → ChangeDetectionPath
  | pathInclude : FsPath → (FsPath → Bool) → ChangeDetectionPath
  | pathExclude : FsPath → (FsPath → Bool) → ChangeDetectionPath
  | pathIncludeExclude : FsPath → (FsPath → Bool) → (FsPath → Bool) → ChangeDetectionPath

/-- The root path owned by a declaration (each variant's first field). -/
def ChangeDetectionPath.getPath : ChangeDetectionPath → FsPath
  | .path p => p
  | .pathInclude p _ => p
  | .pathExclude p _ => p
  | .pathIncludeExclude p _ _ => p

/-- The declaration's local include predicate, when it has one. -/
def ChangeDetectionPath.localInclude : ChangeDetectionPath → Option (FsPath → Bool)
  | .path _ => none
  | .pathInclude _ i => some i
  | .pathExclude _ _ => none
  | .pathIncludeExclude _ i _ => some i

/-- The declaration's local exclude predicate, when it has one. -/
def ChangeDetectionPath.localExclude : ChangeDetectionPath → Option (FsPath → Bool)
  | .path _ => none
  | .pathInclude _ _ => none
  | .pathExclude _ e => some e
  | .pathIncludeExclude _ _ e => some e

/-- `ChangeDetectionBuilder` (src/lib.rs:333-338): optional global include and
exclude predicates plus the registered declarations in registration order. -/
structure ChangeDetectionBuilder where
  incl : Option (FsPath → Bool)
  excl : Option (FsPath → Bool)
  paths : List ChangeDetectionPath

/-- `ChangeDetectionBuilder::filter_include_exclude` (src/lib.rs:497-505):
an absent global include admits everything (`map_or(true, ..)`), an absent
global exclude excludes nothing. -/
def ChangeDetectionBuilder.filter_include_exclude
    (b : ChangeDetectionBuilder) (path : FsPath) : Bool :=
  (match b.incl with
   | none => true
   | some filter => filter path)
  && (match b.excl with
      | none => true
      | some filter => !filter path)

/-- The per-declaration filter closure built by `ChangeDetectionPath::collect`
(src/lib.rs:528-551): the builder's global filter conjoined with the local
include and the negated local exclude, per variant. -/
def ChangeDetectionPath.effective_filter (self : ChangeDetectionPath)
    (builder : ChangeDetectionBuilder) (p : FsPath) : Bool :=
  match self with
  | .path _ => builder.filter_include_exclude p
  | .pathInclude _ incl => builder.filter_include_exclude p && incl p
  | .pathExclude _ excl => builder.filter_include_exclude p && !excl p
  | .pathIncludeExclude _ incl excl =>
    builder.filter_include_exclude p && incl p && !excl p

/-- `ChangeDetectionPath::collect` (src/lib.rs:527-554): walk the
declaration's root with its effective filter. -/
def ChangeDetectionPath.collect (self : ChangeDetectionPath)
    (builder : ChangeDetectionBuilder) (fs : FsEntry) : Except Unit (List FsPath) :=
  collect_resources fs self.getPath (self.effective_filter builder)

/-- The loop of `ChangeDetectionBuilder::generate_extended` (src/lib.rs:488-495)
over the remaining declarations: each declaration's `generate` collects its
whole list, then feeds every path to the sink `f`; a collect error panics
(`expect`), aborting with exactly the sink output `acc` produced so far. -/
def generate_go {α : Type} (b : ChangeDetectionBuilder) (fs : FsEntry)
    (f : FsPath → α) (acc : List α) :
    List ChangeDetectionPath → Except (List α) (List α)
  | [] => .ok acc
  | d :: rest =>
    match d.collect b fs with
    | .error _ => .error acc
    | .ok l => generate_go b fs f (acc ++ l.map f) rest

/-- `ChangeDetectionBuilder::generate_extended` (src/lib.rs:488-495): walk
every registered declaration in registration order, forwarding each surviving
path to the sink `f`. The result is the full sink output, or on abort the sink
output received before the abort. -/
def ChangeDetectionBuilder.generate_extended {α : Type} (b : ChangeDetectionBuilder)
    (fs : FsEntry) (f : FsPath → α) : Except (List α) (List α) :=
  generate_go b fs f [] b.paths

/-- `Path::to_slash`: the slash-separated textual form of a path. -/
def to_slash (p : FsPath) : String :=
  String.intercalate "/" p

/-- `print_change_detection_instruction` (src/lib.rs:519-524): the line the
default sink writes to stdout for one surviving path. -/
def print_change_detection_instruction (p : FsPath) : String :=
  "cargo:rerun-if-changed=" ++ to_slash p

/-- `ChangeDetectionBuilder::generate` (src/lib.rs:484-486): `generate_extended`
with the default stdout sink; the result is the sequence of emitted lines. -/
def ChangeDetectionBuilder.generate (b : ChangeDetectionBuilder) (fs : FsEntry) :
    Except (List String) (List String) :=
  b.generate_extended fs print_change_detection_instruction

/-- Successive `ChangeDetectionPath::collect` results for a list of
declarations, stopping at the first error, as `generate_extended`'s loop
observes them. -/
def collect_all (b : ChangeDetectionBuilder) (fs : FsEntry) :
    List ChangeDetectionPath → Except Unit (List (List FsPath))
  | [] => .ok []
  | d :: rest =>
    match d.collect b fs with
    | .error e => .error e
    | .ok l =>
      match collect_all b fs rest with
      | .error e => .error e
      | .ok ls => .ok (l :: ls)

/-- The specification's four-clause filter conjunction (§4.2): an absent
include admits everything, an absent exclude excludes nothing, and all four
clauses are conjoined. Written from the spec's words, for comparison with
`ChangeDetectionPath.effective_filter`. -/
def spec_filter (gi ge li le : Option (FsPath → Bool)) (p : FsPath) : Bool :=
  (match gi with | none => true | some m => m p)
  && (match ge with | none => true | some m => !m p)
  && (match li with | none => true | some m => m p)
  && (match le with | none => true | some m => !m p)

mutual

/-- Number of entries of a filesystem subtree. -/
def FsEntry.size : FsEntry → Nat
  | .file => 1
  | .dirReadErr => 1
  | .dir children => 1 + sizeChildren children

/-- Total number of entries of a list of directory children. -/
def sizeChildren : List (String × FsEntry) → Nat
  | [] => 0
  | (_, c) :: rest => FsEntry.size c + sizeChildren rest

end

theorem FsEntry.size_pos (e : FsEntry) : 1 ≤ e.size := by
  cases e <;> simp [FsEntry.size]

mutual

/-- Every path collected from an existing entry extends that entry's path. -/
theorem collect_node_within (f : FsPath → Bool) (p : FsPath) (e : FsEntry)
    (l : List FsPath) (h : collect_node f p e = .ok l) :
    ∀ q ∈ l, ∃ t, p ++ t = q := by
  cases e with
  | file =>
    simp [collect_node] at h
    subst h
    intro q hq
    simp only [List.mem_singleton] at hq
    exact ⟨[], by simp [hq]⟩
  | dirReadErr =>
    simp [collect_node] at h
  | dir children =>
    rw [collect_node] at h
    cases hc : collect_children f p children with
    | error err => rw [hc] at h; cases h
    | ok rest =>
      rw [hc] at h
      simp only [] at h
      cases h
      intro q hq
      rcases List.mem_cons.mp hq with hq | hq
      · exact ⟨[], by simp [hq]⟩
      · obtain ⟨name, child, t, _, ht⟩ := collect_children_within f p children rest hc q hq
        exact ⟨name :: t, by rw [← ht]; simp⟩

/-- Every path collected from a children list extends the path of one of the
children. -/
theorem collect_children_within (f : FsPath → Bool) (parent : FsPath)
    (cs : List (String × FsEntry)) (l : List FsPath)
    (h : collect_children f parent cs = .ok l) :
    ∀ q ∈ l, ∃ name child t, (name, child) ∈ cs ∧ (parent ++ [name]) ++ t = q := by
  cases cs with
  | nil =>
    simp [collect_children] at h
    subst h
    intro q hq
    cases hq
  | cons hd rest =>
    obtain ⟨name, child⟩ := hd
    rw [collect_children] at h
    by_cases hf : f (parent ++ [name]) = true
    · rw [if_pos hf] at h
      by_cases hdir : child.is_dir = true
      · rw [if_pos hdir] at h
        cases hn : collect_node f (parent ++ [name]) child with
        | error err => rw [hn] at h; cases h
        | ok nested =>
          rw [hn] at h
          cases hc : collect_children f parent rest with
          | error err => rw [hc] at h; cases h
          | ok tail =>
            rw [hc] at h
            simp only [] at h
            cases h
            intro q hq
            rcases List.mem_append.mp hq with hq | hq
            · obtain ⟨t, ht⟩ := collect_node_within f (parent ++ [name]) child nested hn q hq
              exact ⟨name, child, t, List.mem_cons_self _ _, ht⟩
            · rcases List.mem_cons.mp hq with hq | hq
              · exact ⟨name, child, [], List.mem_cons_self _ _, by simp [hq]⟩
              · obtain ⟨n', c', t, hmem, ht⟩ :=
                  collect_children_within f parent rest tail hc q hq
                exact ⟨n', c', t, List.mem_cons_of_mem _ hmem, ht⟩
      · rw [if_neg hdir] at h
        cases hc : collect_children f parent rest with
        | error err => rw [hc] at h; cases h
        | ok tail =>
          rw [hc] at h
          simp only [] at h
          cases h
          intro q hq
          rcases List.mem_cons.mp hq with hq | hq
          · exact ⟨name, child, [], List.mem_cons_self _ _, by simp [hq]⟩
          · obtain ⟨n', c', t, hmem, ht⟩ :=
              collect_children_within f parent rest tail hc q hq
            exact ⟨n', c', t, List.mem_cons_of_mem _ hmem, ht⟩
    · rw [if_neg hf] at h
      intro q hq
      obtain ⟨n', c', t, hmem, ht⟩ := collect_children_within f parent rest l h q hq
      exact ⟨n', c', t, List.mem_cons_of_mem _ hmem, ht⟩

end

/-- A successful walk of an existing entry puts the entry's own path first. -/
theorem collect_node_head (f : FsPath → Bool) (p : FsPath) (e : FsEntry)
    (l : List FsPath) (h : collect_node f p e = .ok l) :
    ∃ t, l = p :: t := by
  cases e with
  | file =>
    simp [collect_node] at h
    exact ⟨[], h.symm⟩
  | dirReadErr => simp [collect_node] at h
  | dir children =>
    rw [collect_node] at h
    cases hc : collect_children f p children with
    | error err => rw [hc] at h; cases h
    | ok rest =>
      rw [hc] at h
      simp only [] at h
      cases h
      exact ⟨rest, rfl⟩

mutual

/-- The walk of one entry emits at most `2 * size - 1` paths (every entry is
emitted once, plus at most one extra occurrence per directory child). -/
theorem collect_node_length (f : FsPath → Bool) (p : FsPath) (e : FsEntry)
    (l : List FsPath) (h : collect_node f p e = .ok l) :
    l.length + 1 ≤ 2 * e.size := by
  cases e with
  | file =>
    simp [collect_node] at h
    subst h
    simp [FsEntry.size]
  | dirReadErr => simp [collect_node] at h
  | dir children =>
    rw [collect_node] at h
    cases hc : collect_children f p children with
    | error err => rw [hc] at h; cases h
    | ok rest =>
      rw [hc] at h
      simp only [] at h
      cases h
      have := collect_children_length f p children rest hc
      simp only [FsEntry.size, List.length_cons]
      omega

/-- The walk of a children list emits at most `2 * sizeChildren` paths. -/
theorem collect_children_length (f : FsPath → Bool) (parent : FsPath)
    (cs : List (String × FsEntry)) (l : List FsPath)
    (h : collect_children f parent cs = .ok l) :
    l.length ≤ 2 * sizeChildren cs := by
  cases cs with
  | nil =>
    simp [collect_children] at h
    subst h
    simp
  | cons hd rest =>
    obtain ⟨name, child⟩ := hd
    rw [collect_children] at h
    by_cases hf : f (parent ++ [name]) = true
    · rw [if_pos hf] at h
      by_cases hdir : child.is_dir = true
      · rw [if_pos hdir] at h
        cases hn : collect_node f (parent ++ [name]) child with
        | error err => rw [hn] at h; cases h
        | ok nested =>
          rw [hn] at h
          cases hc : collect_children f parent rest with
          | error err => rw [hc] at h; cases h
          | ok tail =>
            rw [hc] at h
            simp only [] at h
            cases h
            have h1 := collect_node_length f (parent ++ [name]) child nested hn
            have h2 := collect_children_length f parent rest tail hc
            simp only [sizeChildren, List.length_append, List.length_cons]
            omega
      · rw [if_neg hdir] at h
        cases hc : collect_children f parent rest with
        | error err => rw [hc] at h; cases h
        | ok tail =>
          rw [hc] at h
          simp only [] at h
          cases h
          have h2 := collect_children_length f parent rest tail hc
          have h3 := FsEntry.size_pos child
          simp only [sizeChildren, List.length_cons]
          omega
    · rw [if_neg hf] at h
      have h2 := collect_children_length f parent rest l h
      have h3 := FsEntry.size_pos child
      simp only [sizeChildren]
      omega

end

/-- Unfolding `generate_go` when every declaration of the list collects
successfully: the sink output is the concatenation, in order, of each
declaration's collected paths run through the sink. -/
theorem generate_go_ok {α : Type} (b : ChangeDetectionBuilder) (fs : FsEntry)
    (f : FsPath → α) (ps : List ChangeDetectionPath) (L : List (List FsPath))
    (h : collect_all b fs ps = .ok L) (acc : List α) :
    generate_go b fs f acc ps = .ok (acc ++ L.flatten.map f) := by
  induction ps generalizing L acc with
  | nil =>
    simp [collect_all] at h
    subst h
    simp [generate_go]
  | cons d rest ih =>
    rw [collect_all] at h
    cases hd : d.collect b fs with
    | error err => rw [hd] at h; cases h
    | ok ld =>
      rw [hd] at h
      cases hr : collect_all b fs rest with
      | error err => rw [hr] at h; cases h
      | ok ls =>
        rw [hr] at h
        simp only [] at h
        cases h
        rw [generate_go, hd]
        simp only []
        rw [ih ls hr]
        simp

/-- Unfolding `generate_go` when every declaration before `bad` collects
successfully and `bad` aborts: the run fails after the sink has received
exactly the earlier declarations' paths. -/
theorem generate_go_error_after {α : Type} (b : ChangeDetectionBuilder) (fs : FsEntry)
    (f : FsPath → α) (pre : List ChangeDetectionPath) (bad : ChangeDetectionPath)
    (post : List ChangeDetectionPath) (L : List (List FsPath))
    (hpre : collect_all b fs pre = .ok L) (hbad : bad.collect b fs = .error ())
    (acc : List α) :
    generate_go b fs f acc (pre ++ bad :: post) = .error (acc ++ L.flatten.map f) := by
  induction pre generalizing L acc with
  | nil =>
    simp [collect_all] at hpre
    subst hpre
    simp only [List.nil_append]
    rw [generate_go, hbad]
    simp
  | cons d rest ih =>
    rw [collect_all] at hpre
    cases hd : d.collect b fs with
    | error err => rw [hd] at hpre; cases hpre
    | ok ld =>
      rw [hd] at hpre
      cases hr : collect_all b fs rest with
      | error err => rw [hr] at hpre; cases hpre
      | ok ls =>
        rw [hr] at hpre
        simp only [] at hpre
        cases hpre
        rw [List.cons_append, generate_go, hd]
        simp only []
        rw [ih ls hr]
        simp

/-- `generate_go` succeeds exactly when every remaining declaration's
collect succeeds. -/
theorem generate_go_ok_iff {α : Type} (b : ChangeDetectionBuilder) (fs : FsEntry)
    (f : FsPath → α) (ps : List ChangeDetectionPath) (acc : List α) :
    (∃ r, generate_go b fs f acc ps = .ok r) ↔
      ∀ d ∈ ps, ∃ l, d.collect b fs = .ok l := by
  induction ps generalizing acc with
  | nil => simp [generate_go]
  | cons d rest ih =>
    rw [generate_go]
    cases hd : d.collect b fs with
    | error err => simp [hd]
    | ok l => simp [hd, ih]

/-- C1: for every builder (global include GI, global exclude GE) and every
declaration (local include LI, local exclude LE), the filter applied to each
non-root entry is exactly the spec's four-clause conjunction
(GI absent or matches) ∧ (GE absent or no match) ∧ (LI absent or matches)
∧ (LE absent or no match); and during the walk a direct child is skipped
entirely when that filter fails, while a child passing it is emitted (and, as
`collect_children` shows, a directory child is recursed into). An absent
filter never excludes, and an exclude match rejects even when an include
matches, since the exclude enters the conjunction negated. -/
theorem C1_filter_conjunction :
    (∀ (b : ChangeDetectionBuilder) (d : ChangeDetectionPath) (p : FsPath),
      d.effective_filter b p = spec_filter b.incl b.excl d.localInclude d.localExclude p)
    ∧ (∀ (f : FsPath → Bool) (parent : FsPath) (name : String) (child : FsEntry)
        (rest : List (String × FsEntry)),
        (f (parent ++ [name]) = false →
          collect_children f parent ((name, child) :: rest) =
            collect_children f parent rest)
        ∧ (f (parent ++ [name]) = true → ∀ l,
            collect_children f parent ((name, child) :: rest) = .ok l →
            (parent ++ [name]) ∈ l)) := by
  constructor
  · intro b d p
    cases d with
    | path root =>
      cases hgi : b.incl <;> cases hge : b.excl <;>
        simp [ChangeDetectionPath.effective_filter, spec_filter,
          ChangeDetectionBuilder.filter_include_exclude, ChangeDetectionPath.localInclude,
          ChangeDetectionPath.localExclude, hgi, hge, Bool.and_assoc]
    | pathInclude root li =>
      cases hgi : b.incl <;> cases hge : b.excl <;>
        simp [ChangeDetectionPath.effective_filter, spec_filter,
          ChangeDetectionBuilder.filter_include_exclude, ChangeDetectionPath.localInclude,
          ChangeDetectionPath.localExclude, hgi, hge, Bool.and_assoc]
    | pathExclude root le =>
      cases hgi : b.incl <;> cases hge : b.excl <;>
        simp [ChangeDetectionPath.effective_filter, spec_filter,
          ChangeDetectionBuilder.filter_include_exclude, ChangeDetectionPath.localInclude,
          ChangeDetectionPath.localExclude, hgi, hge, Bool.and_assoc]
    | pathIncludeExclude root li le =>
      cases hgi : b.incl <;> cases hge : b.excl <;>
        simp [ChangeDetectionPath.effective_filter, spec_filter,
          ChangeDetectionBuilder.filter_include_exclude, ChangeDetectionPath.localInclude,
          ChangeDetectionPath.localExclude, hgi, hge, Bool.and_assoc]
  · intro f parent name child rest
    constructor
    · intro hf
      simp [collect_children, hf]
    · intro hf l h
      rw [collect_children, if_pos hf] at h
      by_cases hdir : child.is_dir = true
      · rw [if_pos hdir] at h
        cases hn : collect_node f (parent ++ [name]) child with
        | error err => rw [hn] at h; cases h
        | ok nested =>
          rw [hn] at h
          cases hc : collect_children f parent rest with
          | error err => rw [hc] at h; cases h
          | ok tail =>
            rw [hc] at h
            simp only [] at h
            cases h
            simp
      · rw [if_neg hdir] at h
        cases hc : collect_children f parent rest with
        | error err => rw [hc] at h; cases h
        | ok tail =>
          rw [hc] at h
          simp only [] at h
          cases h
          simp

/-- Witness for C1 at concrete inputs: with global include `ends with "b"` and
no other filter, the effective filter of a bare declaration agrees with the
spec conjunction on `["fixtures-01", "a"]`, and a child failing the filter
(`fun _ => false`) is skipped together with its subtree. -/
theorem C1_filter_conjunction_witness :
    (ChangeDetectionPath.path ["fixtures-01"]).effective_filter
        ⟨some (fun p => (p.getLastD "").endsWith "b"), none, []⟩ ["fixtures-01", "a"]
      = spec_filter (some (fun p => (p.getLastD "").endsWith "b")) none none none
          ["fixtures-01", "a"]
    ∧ collect_children (fun _ => false) [] [("a", FsEntry.file)] =
        collect_children (fun _ => false) [] [] := by
  constructor
  · exact C1_filter_conjunction.1 ⟨some (fun p => (p.getLastD "").endsWith "b"), none, []⟩
      (ChangeDetectionPath.path ["fixtures-01"]) ["fixtures-01", "a"]
  · exact (C1_filter_conjunction.2 (fun _ => false) [] "a" FsEntry.file []).1 rfl

/-- The repository's `fixtures-01` directory: six files `a ab b bc c cd`. -/
def fixtures01 : FsEntry :=
  .dir [("a", .file), ("ab", .file), ("b", .file), ("bc", .file), ("c", .file), ("cd", .file)]

/-- A sample filesystem for concrete witnesses: `fixtures-01`, a single file,
a directory with a nested subdirectory, and a directory whose enumeration
fails. -/
def sampleFs : FsEntry :=
  .dir [("fixtures-01", fixtures01), ("build.rs", .file),
        ("sub", .dir [("d1", .dir [("x", .file)]), ("f", .file)]),
        ("locked", .dirReadErr)]

/-- C2: a declared root that exists is always in the declaration's collected
result, whatever the global and local filters are — `collect_resources` pushes
the root before consulting any filter. -/
theorem C2_root_in_result (b : ChangeDetectionBuilder) (d : ChangeDetectionPath)
    (fs node : FsEntry) (l : List FsPath)
    (hex : fs.resolve d.getPath = some node)
    (hok : d.collect b fs = .ok l) :
    d.getPath ∈ l := by
  rw [ChangeDetectionPath.collect, collect_resources, hex] at hok
  obtain ⟨t, ht⟩ := collect_node_head _ _ _ _ hok
  subst ht
  exact List.mem_cons_self _ _

/-- Witness for C2: under a global include admitting nothing and a local
exclude rejecting everything, the existing root `fixtures-01` is still
collected. -/
theorem C2_root_in_result_witness :
    ["fixtures-01"] ∈ [(["fixtures-01"] : FsPath)] :=
  C2_root_in_result ⟨some (fun _ => false), none, []⟩
    (ChangeDetectionPath.pathExclude ["fixtures-01"] (fun _ => true))
    sampleFs fixtures01 [["fixtures-01"]] rfl rfl

/-- C3: a direct child failing the effective filter is pruned: the walk of the
remaining children is unchanged (the subtree is never visited), and — sibling
names being distinct, as directory entries are — no path at or below the
failing child appears in the directory's result. -/
theorem C3_exclusion_prunes_subtree (f : FsPath → Bool) (parent : FsPath)
    (name : String) (child : FsEntry) (rest : List (String × FsEntry))
    (hnodup : name ∉ rest.map Prod.fst)
    (hf : f (parent ++ [name]) = false) :
    collect_children f parent ((name, child) :: rest) = collect_children f parent rest
    ∧ ∀ l, collect_children f parent ((name, child) :: rest) = .ok l →
        ∀ q ∈ l, ¬ ∃ t, (parent ++ [name]) ++ t = q := by
  have heq : collect_children f parent ((name, child) :: rest) =
      collect_children f parent rest := by
    simp [collect_children, hf]
  refine ⟨heq, ?_⟩
  rintro l hok q hq ⟨t, ht⟩
  rw [heq] at hok
  obtain ⟨n', c', t', hmem, ht'⟩ := collect_children_within f parent rest l hok q hq
  rw [← ht] at ht'
  have h2 : parent ++ (n' :: t') = parent ++ (name :: t) := by
    simpa [List.append_assoc] using ht'
  have h3 : n' = name := (List.cons.injEq _ _ _ _).mp (List.append_cancel_left h2) |>.1
  subst h3
  exact hnodup (List.mem_map_of_mem Prod.fst hmem)

/-- Witness for C3: with the filter `last component is "d1"`, child `f` of
`sub` fails; dropping it leaves the walk of the sibling `d1` unchanged, and no
path at or below `sub/f` occurs in the collected result `[sub/d1, sub/d1]`. -/
theorem C3_exclusion_prunes_subtree_witness :
    (collect_children (fun p => p.getLastD "" == "d1") ["sub"]
        [("f", FsEntry.file), ("d1", FsEntry.dir [])] =
      collect_children (fun p => p.getLastD "" == "d1") ["sub"]
        [("d1", FsEntry.dir [])])
    ∧ ∀ q ∈ [(["sub", "d1"] : FsPath), ["sub", "d1"]],
        ¬ ∃ t, (["sub"] ++ ["f"]) ++ t = q := by
  have h := C3_exclusion_prunes_subtree (fun p => p.getLastD "" == "d1")
    ["sub"] "f" FsEntry.file [("d1", FsEntry.dir [])] (by decide) rfl
  exact ⟨h.1, h.2 [["sub", "d1"], ["sub", "d1"]] rfl⟩

/-- C4: a declared root that does not exist contributes `Ok(vec![])` — no
error — and generation continues with the remaining declarations exactly as if
the declaration were not there. -/
theorem C4_absent_root_empty_ok (b : ChangeDetectionBuilder) (d : ChangeDetectionPath)
    (fs : FsEntry) (hab : fs.resolve d.getPath = none) :
    d.collect b fs = .ok []
    ∧ ∀ (α : Type) (f : FsPath → α) (acc : List α) (rest : List ChangeDetectionPath),
        generate_go b fs f acc (d :: rest) = generate_go b fs f acc rest := by
  have hc : d.collect b fs = .ok [] := by
    rw [ChangeDetectionPath.collect, collect_resources, hab]
  refine ⟨hc, ?_⟩
  intro α f acc rest
  rw [generate_go, hc]
  simp

/-- Witness for C4: the declaration of the absent path `missing` collects
nothing and drops out of a generation run. -/
theorem C4_absent_root_empty_ok_witness :
    (ChangeDetectionPath.path ["missing"]).collect ⟨none, none, []⟩ sampleFs = .ok []
    ∧ generate_go ⟨none, none, []⟩ sampleFs to_slash []
        [ChangeDetectionPath.path ["missing"], ChangeDetectionPath.path ["build.rs"]] =
      generate_go ⟨none, none, []⟩ sampleFs to_slash []
        [ChangeDetectionPath.path ["build.rs"]] := by
  have h := C4_absent_root_empty_ok ⟨none, none, []⟩
    (ChangeDetectionPath.path ["missing"]) sampleFs rfl
  exact ⟨h.1, h.2 String to_slash [] [ChangeDetectionPath.path ["build.rs"]]⟩

/-- C5: a declared root that exists and is not a directory collects to exactly
the one-element sequence of the root; a directory root is emitted first
(head of the result); and a directory child passing the filter contributes its
recursively collected subtree entries before the child path appended by the
enclosing loop. -/
theorem C5_walk_order :
    (∀ (b : ChangeDetectionBuilder) (d : ChangeDetectionPath) (fs : FsEntry),
      fs.resolve d.getPath = some .file → d.collect b fs = .ok [d.getPath])
    ∧ (∀ (f : FsPath → Bool) (p : FsPath) (children : List (String × FsEntry))
        (l : List FsPath),
        collect_node f p (.dir children) = .ok l → ∃ t, l = p :: t)
    ∧ (∀ (f : FsPath → Bool) (parent : FsPath) (name : String)
        (cs rest : List (String × FsEntry)) (nested tail : List FsPath),
        f (parent ++ [name]) = true →
        collect_node f (parent ++ [name]) (.dir cs) = .ok nested →
        collect_children f parent rest = .ok tail →
        collect_children f parent ((name, .dir cs) :: rest) =
          .ok (nested ++ (parent ++ [name]) :: tail)) := by
  refine ⟨?_, ?_, ?_⟩
  · intro b d fs hres
    rw [ChangeDetectionPath.collect, collect_resources, hres]
    simp [collect_node]
  · intro f p children l h
    exact collect_node_head f p _ l h
  · intro f parent name cs rest nested tail hf hn hc
    rw [collect_children, if_pos hf]
    simp only [FsEntry.is_dir, if_true]
    rw [hn, hc]

/-- Witness for C5: the file `build.rs` collects to itself alone; the walk of
the directory `sub` puts `sub` first; and the subtree of the passing directory
child `d1` of `sub` precedes the appended child path `sub/d1`. -/
theorem C5_walk_order_witness :
    (ChangeDetectionPath.path ["build.rs"]).collect ⟨none, none, []⟩ sampleFs =
      .ok [["build.rs"]]
    ∧ (∃ t, [(["sub"] : FsPath), ["sub", "d1"], ["sub", "d1", "x"], ["sub", "d1"],
        ["sub", "f"]] = ["sub"] :: t)
    ∧ collect_children (fun _ => true) ["sub"]
        [("d1", FsEntry.dir [("x", FsEntry.file)]), ("f", FsEntry.file)] =
      .ok ([["sub", "d1"], ["sub", "d1", "x"]] ++ (["sub"] ++ ["d1"]) ::
        [["sub", "f"]]) := by
  refine ⟨?_, ?_, ?_⟩
  · exact C5_walk_order.1 ⟨none, none, []⟩ (ChangeDetectionPath.path ["build.rs"])
      sampleFs rfl
  · exact C5_walk_order.2.1 (fun _ => true) ["sub"]
      [("d1", FsEntry.dir [("x", FsEntry.file)]), ("f", FsEntry.file)] _ rfl
  · exact C5_walk_order.2.2 (fun _ => true) ["sub"] "d1" [("x", FsEntry.file)]
      [("f", FsEntry.file)] [["sub", "d1"], ["sub", "d1", "x"]] [["sub", "f"]]
      rfl rfl rfl

/-- C6: a filesystem error other than "does not exist" is fatal. An existing
root whose enumeration fails makes the declaration's collect return `Err`; a
failing directory reached as a filter-passing child aborts the surrounding
walk the same way; and the generation run as a whole aborts exactly when some
registered declaration's collect fails — there is no recovery or partial
result for that declaration. -/
theorem C6_fs_error_fatal :
    (∀ (b : ChangeDetectionBuilder) (d : ChangeDetectionPath) (fs : FsEntry),
      fs.resolve d.getPath = some .dirReadErr → d.collect b fs = .error ())
    ∧ (∀ (f : FsPath → Bool) (parent : FsPath) (name : String)
        (rest : List (String × FsEntry)),
        f (parent ++ [name]) = true →
        collect_children f parent ((name, .dirReadErr) :: rest) = .error ())
    ∧ (∀ (α : Type) (b : ChangeDetectionBuilder) (fs : FsEntry) (f : FsPath → α),
        (∃ acc, b.generate_extended fs f = .error acc) ↔
          ∃ d ∈ b.paths, d.collect b fs = .error ()) := by
  refine ⟨?_, ?_, ?_⟩
  · intro b d fs hres
    rw [ChangeDetectionPath.collect, collect_resources, hres]
    simp [collect_node]
  · intro f parent name rest hf
    rw [collect_children, if_pos hf]
    simp only [FsEntry.is_dir, if_true]
    rw [collect_node]
  · intro α b fs f
    rw [ChangeDetectionBuilder.generate_extended]
    constructor
    · rintro ⟨acc, hacc⟩
      by_contra hno
      push_neg at hno
      have hall : ∀ d ∈ b.paths, ∃ l, d.collect b fs = .ok l := by
        intro d hd
        cases hcd : d.collect b fs with
        | error e => cases e; exact absurd hcd (hno d hd)
        | ok l => exact ⟨l, rfl⟩
      obtain ⟨r, hr⟩ := (generate_go_ok_iff b fs f b.paths []).mpr hall
      rw [hr] at hacc
      cases hacc
    · rintro ⟨d, hd, hcd⟩
      cases hgen : generate_go b fs f [] b.paths with
      | error acc => exact ⟨acc, rfl⟩
      | ok r =>
        obtain ⟨l, hl⟩ := (generate_go_ok_iff b fs f b.paths []).mp ⟨r, hgen⟩ d hd
        rw [hcd] at hl
        cases hl

/-- Witness for C6: the declaration of `locked` (whose enumeration fails)
collects to an error; a failing directory child aborts its parent's walk; and
a generation over `build.rs` then `locked` aborts. -/
theorem C6_fs_error_fatal_witness :
    (ChangeDetectionPath.path ["locked"]).collect ⟨none, none, []⟩ sampleFs = .error ()
    ∧ collect_children (fun _ => true) [] [("locked", FsEntry.dirReadErr)] = .error ()
    ∧ (∃ acc, ChangeDetectionBuilder.generate_extended
        ⟨none, none, [ChangeDetectionPath.path ["build.rs"], ChangeDetectionPath.path ["locked"]]⟩
        sampleFs to_slash = .error acc) := by
  refine ⟨?_, ?_, ?_⟩
  · exact C6_fs_error_fatal.1 ⟨none, none, []⟩ (ChangeDetectionPath.path ["locked"])
      sampleFs rfl
  · exact C6_fs_error_fatal.2.1 (fun _ => true) [] "locked" [] rfl
  · exact (C6_fs_error_fatal.2.2 String
      ⟨none, none, [ChangeDetectionPath.path ["build.rs"], ChangeDetectionPath.path ["locked"]]⟩
      sampleFs to_slash).mpr
      ⟨ChangeDetectionPath.path ["locked"], by simp, rfl⟩

/-- C7: `generate` is `generate_extended` with the default stdout sink; that
sink writes, per surviving path, exactly the line
`cargo:rerun-if-changed=<path>` with the path in slash-separated textual form;
and when every declaration collects successfully the run's output is each
declaration's collected paths, in registration order, each passed once
through the sink. -/
theorem C7_generate_sink_lines :
    (∀ (b : ChangeDetectionBuilder) (fs : FsEntry),
      b.generate fs = b.generate_extended fs print_change_detection_instruction)
    ∧ (∀ p : FsPath,
        print_change_detection_instruction p =
          "cargo:rerun-if-changed=" ++ String.intercalate "/" p)
    ∧ (∀ (α : Type) (b : ChangeDetectionBuilder) (fs : FsEntry) (f : FsPath → α)
        (L : List (List FsPath)),
        collect_all b fs b.paths = .ok L →
        b.generate_extended fs f = .ok (L.flatten.map f)) := by
  refine ⟨fun b fs => rfl, fun p => rfl, ?_⟩
  intro α b fs f L h
  rw [ChangeDetectionBuilder.generate_extended, generate_go_ok b fs f b.paths L h []]
  simp

/-- Witness for C7: generating over the declarations `build.rs` then
`fixtures-01` emits one `cargo:rerun-if-changed=` line per collected path, in
registration order. -/
theorem C7_generate_sink_lines_witness :
    ChangeDetectionBuilder.generate_extended
      ⟨none, none, [ChangeDetectionPath.path ["build.rs"],
        ChangeDetectionPath.path ["fixtures-01"]]⟩
      sampleFs print_change_detection_instruction =
    .ok ["cargo:rerun-if-changed=build.rs",
         "cargo:rerun-if-changed=fixtures-01",
         "cargo:rerun-if-changed=fixtures-01/a",
         "cargo:rerun-if-changed=fixtures-01/ab",
         "cargo:rerun-if-changed=fixtures-01/b",
         "cargo:rerun-if-changed=fixtures-01/bc",
         "cargo:rerun-if-changed=fixtures-01/c",
         "cargo:rerun-if-changed=fixtures-01/cd"] := by
  have h := C7_generate_sink_lines.2.2 String
    ⟨none, none, [ChangeDetectionPath.path ["build.rs"],
      ChangeDetectionPath.path ["fixtures-01"]]⟩
    sampleFs print_change_detection_instruction
    [[["build.rs"]],
     [["fixtures-01"], ["fixtures-01", "a"], ["fixtures-01", "ab"], ["fixtures-01", "b"],
      ["fixtures-01", "bc"], ["fixtures-01", "c"], ["fixtures-01", "cd"]]] rfl
  rw [h]
  rfl

/-- C8: a declaration's walk of an existing root produces a finite output —
at most twice the number of entries of the root's subtree — and every emitted
path extends the root, reflecting that traversal follows only the
parent-to-child directory-entry relation. The finite-tree filesystem model
embodies the claim's precondition that the subtree has no symbolic-link
cycles. -/
theorem C8_walk_finite_within_root (f : FsPath → Bool) (fs : FsEntry)
    (root : FsPath) (node : FsEntry) (l : List FsPath)
    (hres : fs.resolve root = some node)
    (hok : collect_resources fs root f = .ok l) :
    l.length ≤ 2 * node.size ∧ ∀ q ∈ l, ∃ t, root ++ t = q := by
  rw [collect_resources, hres] at hok
  refine ⟨?_, collect_node_within f root node l hok⟩
  have := collect_node_length f root node l hok
  omega

/-- Witness for C8: the walk of `sub` emits five paths, at most twice the
four entries of its subtree, and each extends `sub`. -/
theorem C8_walk_finite_within_root_witness :
    ([(["sub"] : FsPath), ["sub", "d1"], ["sub", "d1", "x"], ["sub", "d1"],
        ["sub", "f"]].length ≤
      2 * (FsEntry.dir [("d1", FsEntry.dir [("x", FsEntry.file)]),
        ("f", FsEntry.file)]).size)
    ∧ ∀ q ∈ [(["sub"] : FsPath), ["sub", "d1"], ["sub", "d1", "x"], ["sub", "d1"],
        ["sub", "f"]], ∃ t, ["sub"] ++ t = q :=
  C8_walk_finite_within_root (fun _ => true) sampleFs ["sub"]
    (FsEntry.dir [("d1", FsEntry.dir [("x", FsEntry.file)]), ("f", FsEntry.file)])
    [["sub"], ["sub", "d1"], ["sub", "d1", "x"], ["sub", "d1"], ["sub", "f"]]
    rfl rfl

/-- C9: when a declaration's walk fails, the sink receives nothing at all from
that declaration — its path list is collected in full before any forwarding —
while the paths of the declarations registered before it have already been
forwarded: the aborted run's sink output is exactly the earlier declarations'
collected paths. -/
theorem C9_error_decl_no_output (α : Type) (b : ChangeDetectionBuilder)
    (fs : FsEntry) (f : FsPath → α) (pre : List ChangeDetectionPath)
    (bad : ChangeDetectionPath) (post : List ChangeDetectionPath)
    (L : List (List FsPath))
    (hpaths : b.paths = pre ++ bad :: post)
    (hpre : collect_all b fs pre = .ok L)
    (hbad : bad.collect b fs = .error ()) :
    b.generate_extended fs f = .error (L.flatten.map f) := by
  rw [ChangeDetectionBuilder.generate_extended, hpaths,
    generate_go_error_after b fs f pre bad post L hpre hbad []]
  simp

/-- Witness for C9: generating over `build.rs`, then the failing `locked`,
then `fixtures-01` aborts with the sink having received exactly the line for
`build.rs` — nothing from `locked` and nothing from the later declaration. -/
theorem C9_error_decl_no_output_witness :
    ChangeDetectionBuilder.generate_extended
      ⟨none, none, [ChangeDetectionPath.path ["build.rs"],
        ChangeDetectionPath.path ["locked"], ChangeDetectionPath.path ["fixtures-01"]]⟩
      sampleFs to_slash = .error ["build.rs"] := by
  have h := C9_error_decl_no_output String
    ⟨none, none, [ChangeDetectionPath.path ["build.rs"],
      ChangeDetectionPath.path ["locked"], ChangeDetectionPath.path ["fixtures-01"]]⟩
    sampleFs to_slash [ChangeDetectionPath.path ["build.rs"]]
    (ChangeDetectionPath.path ["locked"]) [ChangeDetectionPath.path ["fixtures-01"]]
    [[["build.rs"]]] rfl rfl rfl
  rw [h]
  rfl

/-- C10: every path in a declaration's collected result is the declaration's
root itself or lies strictly below it (the root extended by a nonempty
component list), so a walk never emits a path outside its own subtree. -/
theorem C10_result_within_root (b : ChangeDetectionBuilder)
    (d : ChangeDetectionPath) (fs : FsEntry) (l : List FsPath)
    (hok : d.collect b fs = .ok l) :
    ∀ q ∈ l, q = d.getPath ∨ ∃ t, t ≠ [] ∧ d.getPath ++ t = q := by
  rw [ChangeDetectionPath.collect] at hok
  cases hres : fs.resolve d.getPath with
  | none =>
    rw [collect_resources, hres] at hok
    cases hok
    intro q hq
    cases hq
  | some node =>
    rw [collect_resources, hres] at hok
    intro q hq
    obtain ⟨t, ht⟩ := collect_node_within _ _ _ _ hok q hq
    cases t with
    | nil => exact Or.inl (by simpa using ht.symm)
    | cons a t' => exact Or.inr ⟨a :: t', List.cons_ne_nil a t', ht⟩

/-- Witness for C10: the collected path `fixtures-01/ab` of the `fixtures-01`
declaration is the root itself or strictly below it. -/
theorem C10_result_within_root_witness :
    (["fixtures-01", "ab"] : FsPath) = (ChangeDetectionPath.path ["fixtures-01"]).getPath
      ∨ ∃ t, t ≠ [] ∧
        (ChangeDetectionPath.path ["fixtures-01"]).getPath ++ t = ["fixtures-01", "ab"] :=
  C10_result_within_root ⟨none, none, []⟩ (ChangeDetectionPath.path ["fixtures-01"])
    sampleFs
    [["fixtures-01"], ["fixtures-01", "a"], ["fixtures-01", "ab"], ["fixtures-01", "b"],
     ["fixtures-01", "bc"], ["fixtures-01", "c"], ["fixtures-01", "cd"]] rfl
    ["fixtures-01", "ab"] (by simp)
